import Mathlib

/-!
Verification of websocketfs (a WebSocket-transported SFTP filesystem).

This file shallowly embeds the parts of the TypeScript source that the
checked claims are about:

* the Node.js POSIX path functions (path.normalize, path.join,
  path.dirname) that the server uses, modelled over `List Char`;
* `SafeFilesystem.toRealPath` / `toVirtualPath` and the read-only guards
  (src/unnamed/part_001, the fs-safe module);
* the client protocol engine: request-id allocation (`getRequest`),
  request emission (`execute`), the INIT/VERSION handshake check, the
  zero-length-DATA retry logic of `parseData`, and the STATUS-to-error
  table of `createError` (src/websocket-sftp/lib/sftp-client.ts);
* the WebSocket channel close-code interpretation and close emission
  (src/unnamed/part_004, the channel module);
* the FUSE adapter: write coalescing, flush/fsync/release, cache
  invalidation (`clearCache`), the flush error suppression branch, and
  `readlink` caching (src/websocketfs/lib/sftp-fuse.ts).

Strings are modelled as `List Char`; JavaScript numbers that are used as
32-bit values are modelled as `Int` with explicit wrapping.  The server
is modelled with `isWindows = false` (the backslash replacement branch of
`toVirtualPath` is inactive).
-/

namespace NodePath

/-- Split a path on the separator character, keeping empty segments,
exactly as the repeated-separator scanning of Node's normalizeString
sees them. -/
def splitOnSlash : List Char → List (List Char)
  | [] => [[]]
  | c :: rest =>
    if c = '/' then [] :: splitOnSlash rest
    else
      match splitOnSlash rest with
      | [] => [[c]]
      | s :: ss => (c :: s) :: ss

/-- Interleave segments with the separator (inverse of splitting for
slash-free segments). -/
def interSlash : List (List Char) → List Char
  | [] => []
  | [s] => s
  | s :: rest => s ++ '/' :: interSlash rest

/-- One step of Node's normalizeString: skip empty and dot segments, pop
on a dot-dot segment (or keep it when above-root traversal is allowed,
i.e. for relative paths), and append any other segment. -/
def normStep (allowAbove : Bool) (res : List (List Char)) (seg : List Char) :
    List (List Char) :=
  if seg = [] ∨ seg = ['.'] then res
  else if seg = ['.', '.'] then
    if res ≠ [] ∧ res.getLast? ≠ some ['.', '.'] then res.dropLast
    else if allowAbove then res ++ [seg] else res
  else res ++ [seg]

/-- Node's normalizeString over the segment list. -/
def normSegs (allowAbove : Bool) (segs : List (List Char)) : List (List Char) :=
  segs.foldl (normStep allowAbove) []

/-- Whether the path starts with the separator (charCodeAt(0) in the
source). -/
def isAbs (p : List Char) : Bool := p.head? = some '/'

/-- Whether the path ends with the separator. -/
def lastIsSlash (p : List Char) : Bool := p.getLast? = some '/'

/-- Node's path.posix.normalize over `List Char`. -/
def normalize (p : List Char) : List Char :=
  if p = [] then ['.']
  else
    let abs := isAbs p
    let trail := lastIsSlash p
    let core := interSlash (normSegs (!abs) (splitOnSlash p))
    if core = [] then
      if abs then ['/'] else if trail then ['.', '/'] else ['.']
    else
      if abs then '/' :: (core ++ if trail then ['/'] else [])
      else core ++ if trail then ['/'] else []

/-- Node's path.posix.join restricted to two arguments: empty arguments
are skipped, the rest are concatenated with a separator and the result
is normalized. -/
def joinTwo (a b : List Char) : List Char :=
  if a = [] ∧ b = [] then ['.']
  else normalize (if a = [] then b else if b = [] then a else a ++ '/' :: b)

/-- Largest index i with 1 ≤ i and the character at i equal to the
separator (the end marker of Node's dirname scan). -/
def lastSlashIdx (t : List Char) : Option Nat :=
  ((t.enum.filter fun q => 1 ≤ q.1 ∧ q.2 = '/').getLast?).map Prod.fst

/-- Node's path.posix.dirname over `List Char`. -/
def dirname (p : List Char) : List Char :=
  if p = [] then ['.']
  else
    let hasRoot := p.head? = some '/'
    let t := (p.reverse.dropWhile fun c => c = '/').reverse
    match lastSlashIdx t with
    | none => if hasRoot then ['/'] else ['.']
    | some e => if hasRoot ∧ e = 1 then ['/', '/'] else p.take e

end NodePath

namespace SafeFilesystem

open NodePath

/-- Character-by-character comparison loop of toVirtualPath: when the
root is exhausted the remaining suffix of the full path is returned;
when the full path is exhausted first or a character differs, the loop
bails out (the source then produces the root virtual path). -/
def tvAux : List Char → List Char → Option (List Char)
  | [], full => some full
  | _ :: _, [] => none
  | r :: rs, f :: fs => if r = f then tvAux rs fs else none

/-- SafeFilesystem.toVirtualPath (src/unnamed/part_001 lines 91-124) on a
non-Windows host: strip the root prefix from the full path; on a
mismatch or when the result is empty return the virtual root path. -/
def toVirtualPath (root full : List Char) : List Char :=
  let path :=
    match tvAux root full with
    | some rest => rest
    | none => ['/']
  if path = [] then ['/'] else path

/-- SafeFilesystem.toRealPath (src/unnamed/part_001 lines 126-130):
join the wire path onto the virtual root after rooting it at the
separator. -/
def toRealPath (root p : List Char) : List Char :=
  joinTwo root (joinTwo ['/'] p)

end SafeFilesystem

namespace SftpClientCore

/-- Wrap an integer to a signed 32-bit value, as the JavaScript bitwise
conjunction with 0xffffffff does in `(this._id + 1) & 0xffffffff`. -/
def toInt32 (n : Int) : Int := (n + 2 ^ 31) % 2 ^ 32 - 2 ^ 31

/-- State of the client engine that request-id allocation touches: the
`_id` counter (null before INIT) and the keys of the in-flight request
table `_requests` (numeric keys plus the null key used by INIT). -/
structure IdState where
  id : Option Int
  inflight : List Int
  nullSlot : Bool
deriving DecidableEq, Repr

/-- SftpClientCore.getRequest (sftp-client.ts lines 108-128): the new
packet takes the current `_id` as its request id; INIT requires the
counter to be unset and sets it to 1; any other type requires it to be
set and advances it by one with a 32-bit wrap.  Returns the packet id
and the new state, or the thrown message. -/
def getRequest (isInit : Bool) (s : IdState) : Except String (Option Int × IdState) :=
  if isInit then
    match s.id with
    | some _ => .error "Already initialized"
    | none => .ok (none, ⟨some 1, s.inflight, s.nullSlot⟩)
  else
    match s.id with
    | none => .error "Must be initialized first"
    | some i => .ok (some i, ⟨some (toInt32 (i + 1)), s.inflight, s.nullSlot⟩)

/-- The request-table bookkeeping of SftpClientCore.execute (sftp-client.ts
lines 158-207): a packet whose id is already a key of `_requests` throws
"Duplicate request"; otherwise the request is stored under its id
(packets with a null id, i.e. INIT, are stored under the null key). -/
def execute (reqId : Option Int) (s : IdState) : Except String IdState :=
  match reqId with
  | some i =>
    if i ∈ s.inflight then .error "Duplicate request"
    else .ok ⟨s.id, i :: s.inflight, s.nullSlot⟩
  | none => .ok ⟨s.id, s.inflight, true⟩

/-- Outcome of the VERSION response parser inside SftpClientCore._init
(sftp-client.ts lines 237-258). -/
inductive InitOutcome where
  | protocolViolation (closeCode : Nat) (message : String)
  | versionMismatch (closeCode : Nat) (statusCode : Nat) (message : String)
  | ok
deriving DecidableEq, Repr

/-- The channel close code an init outcome carries, if it closes the
channel. -/
def InitOutcome.closeCode : InitOutcome → Option Nat
  | .protocolViolation c _ => some c
  | .versionMismatch c _ _ => some c
  | .ok => none

/-- The VERSION response check of SftpClientCore._init: a packet whose
type is not VERSION (2) closes the channel with code 3002 and surfaces
a protocol-violation error; a version other than 3 closes the channel
with code 3002 and surfaces a BAD_MESSAGE (5) error; otherwise the
handshake continues. -/
def checkVersionResponse (ptype : Nat) (version : Nat) : InitOutcome :=
  if ptype ≠ 2 then .protocolViolation 3002 "Protocol violation"
  else if version ≠ 3 then .versionMismatch 3002 5 "Unexpected protocol version"
  else .ok

/-- Error code string and errno of SftpClientCore.createError
(sftp-client.ts lines 881-955), indexed by the native SFTP status code.
The second BAD_MESSAGE arm of the source switch is dead code (the
earlier arm already matches), so BAD_MESSAGE maps to EFAILURE. -/
def createError (nativeCode : Nat) : String × Int :=
  match nativeCode with
  | 1 => ("EOF", 1)
  | 2 => ("ENOENT", 34)
  | 3 => ("EACCES", 3)
  | 0 => ("EFAILURE", -2)
  | 4 => ("EFAILURE", -2)
  | 5 => ("EFAILURE", -2)
  | 6 => ("ENOTCONN", 31)
  | 7 => ("ESHUTDOWN", 46)
  | 8 => ("ENOSYS", 35)
  | _ => ("UNKNOWN", -1)

/-- A response to a READ request: a STATUS packet carrying a native
status code, or a DATA packet carrying a payload length. -/
inductive ReadResponse where
  | status (code : Nat)
  | data (len : Nat)
deriving DecidableEq, Repr

/-- What one invocation of parseData does with a response. -/
inductive ReadStep where
  | done (bytesRead : Nat)
  | eofDone
  | fail (code : String) (errno : Int)
  | retry (nextRetries : Nat) (position : Nat) (reqLen : Nat)
  | protocolThrow (message : String)
deriving DecidableEq, Repr

/-- SftpClientCore.parseData (sftp-client.ts lines 1045-1126) as a step
function.  `retries` is the retry counter threaded through the
recursion (0 for the response to the original READ), `reqLen` the
length requested by the READ this response answers, `position` the
offset of that READ.  A non-EOF STATUS fails with the createError
mapping; EOF completes with 0 bytes; an over-long DATA throws; an empty
DATA retries at the same position (requesting `data.length`, i.e. 0,
bytes) while `retries` has not exceeded 4, and fails with EIO (errno
55) once it has. -/
def parseData (retries : Nat) (reqLen : Nat) (position : Nat)
    (resp : ReadResponse) : ReadStep :=
  match resp with
  | .status c =>
    if c = 1 then .eofDone
    else .fail (createError c).1 (createError c).2
  | .data n =>
    if n > reqLen then .protocolThrow "Received too much data"
    else if n = 0 then
      if retries > 4 then .fail "EIO" 55
      else .retry (retries + 1) position 0
    else .done n

/-- Drive parseData over a list of successive responses, starting from
the response to the original READ (retry counter 0 arrives via the
caller).  Returns the final step, or none while the engine is still
waiting for a response to a retry it issued. -/
def readLoop : Nat → Nat → Nat → List ReadResponse → Option ReadStep
  | _, _, _, [] => none
  | retries, reqLen, pos, resp :: rest =>
    match parseData retries reqLen pos resp with
    | .retry r p l => readLoop r l p rest
    | step => some step

end SftpClientCore

namespace WebSocketChannel

/-- WebSocketChannel.interpretCloseStatus (src/unnamed/part_004 lines
171-200): map a numeric WebSocket close code to either the code itself
(a non-error close) or an error code string with a message.  Codes
1007, 1008 and 1009 set a message and fall through to the generic
EFAILURE return, as does any unlisted code. -/
def interpretCloseStatus (code : Nat) (reason : String) : Sum Nat (String × String) :=
  if code = 1000 then .inl code
  else if code = 1001 then .inr ("X_GOINGAWAY", "Endpoint is going away")
  else if code = 1002 then .inr ("EPROTOTYPE", "Protocol error")
  else if code = 1006 then .inr ("ECONNABORTED", "Connection aborted")
  else if code = 1007 then .inr ("EFAILURE", "Invalid message")
  else if code = 1008 then .inr ("EFAILURE", "Prohibited message")
  else if code = 1009 then .inr ("EFAILURE", "Message too large")
  else if code = 1010 then .inr ("ECONNRESET", "Connection terminated")
  else if code = 1011 then .inr ("ECONNRESET", reason)
  else if code = 1015 then .inr ("EFAILURE", "Unable to negotiate secure connection")
  else .inr ("EFAILURE", "Connection failed")

/-- What the close listener bound by _bindCloseListener, via _close
(src/unnamed/part_004 lines 148-167 and 202-223), hands to the onclose
callback when the transport closes: `none` when the channel was already
closed (nothing happens), `some none` when onclose is invoked without
an error, and `some (some e)` when it is invoked with error e.  A
non-error close of a channel that was never established is converted
into an ECONNREFUSED error; a mapped error is passed through unchanged
whether or not the channel was established. -/
def closeEmission (closedAlready established : Bool) (code : Nat)
    (reason : String) : Option (Option (String × String)) :=
  if closedAlready then none
  else
    match interpretCloseStatus code reason with
    | .inl _ =>
      if !established then some (some ("ECONNREFUSED", "Connection refused"))
      else some none
    | .inr e => some (some e)

end WebSocketChannel

namespace SafeFilesystem

/-- The options of the SafeFilesystem constructor that the read-only
guards consult.  The constructor coerces both options to booleans with
a loose comparison against true, so they are modelled as Bool. -/
structure Config where
  readOnly : Bool
  hideUidGid : Bool
deriving DecidableEq, Repr

/-- SafeFilesystem.isReadOnly (src/unnamed/part_001 lines 180-182):
the double negation of the stored flag. -/
def isReadOnly (cfg : Config) : Bool := !(cfg.readOnly = false)

/-- The open-mode argument of SafeFilesystem.open: a string mode or a
numeric flag word (the source accepts both). -/
inductive OpenFlags where
  | str (s : List Char)
  | num (n : Nat)
deriving DecidableEq, Repr

/-- The JavaScript loose comparison `flags != "r"` of the open guard: a
numeric flag word never equals the string "r". -/
def flagsIsR : OpenFlags → Bool
  | .str s => s = ['r']
  | .num _ => false

/-- How far one of the guarded SafeFilesystem methods gets before it
would touch the underlying filesystem: an early failure produced by
FileUtil.fail before any `this.fs` access, or the remainder of the
method, which does issue underlying calls. -/
inductive GuardResult where
  | failed (code : String)
  | proceed
deriving DecidableEq, Repr

/-- Guard of SafeFilesystem.open (part_001 lines 294-320): EROFS when
read-only and the flags are not the string "r", then ENFILE when no
handle slot is free, both before the underlying open. -/
def openGuard (cfg : Config) (flags : OpenFlags) (handleFree : Bool) : GuardResult :=
  if isReadOnly cfg ∧ ¬flagsIsR flags then .failed "EROFS"
  else if ¬handleFree then .failed "ENFILE"
  else .proceed

/-- Guard of SafeFilesystem.write (part_001 lines 349-368). -/
def writeGuard (cfg : Config) : GuardResult :=
  if isReadOnly cfg then .failed "EROFS" else .proceed

/-- Guard of SafeFilesystem.setstat (part_001 lines 401-415). -/
def setstatGuard (cfg : Config) : GuardResult :=
  if isReadOnly cfg then .failed "EROFS" else .proceed

/-- Guard of SafeFilesystem.fsetstat (part_001 lines 417-430). -/
def fsetstatGuard (cfg : Config) : GuardResult :=
  if isReadOnly cfg then .failed "EROFS" else .proceed

/-- Guard of SafeFilesystem.unlink (part_001 lines 471-481). -/
def unlinkGuard (cfg : Config) : GuardResult :=
  if isReadOnly cfg then .failed "EROFS" else .proceed

/-- Guard of SafeFilesystem.mkdir (part_001 lines 483-493). -/
def mkdirGuard (cfg : Config) : GuardResult :=
  if isReadOnly cfg then .failed "EROFS" else .proceed

/-- Guard of SafeFilesystem.rmdir (part_001 lines 495-505). -/
def rmdirGuard (cfg : Config) : GuardResult :=
  if isReadOnly cfg then .failed "EROFS" else .proceed

/-- Guard of SafeFilesystem.rename (part_001 lines 546-564). -/
def renameGuard (cfg : Config) : GuardResult :=
  if isReadOnly cfg then .failed "EROFS" else .proceed

/-- Guard of SafeFilesystem.symlink (part_001 lines 579-599). -/
def symlinkGuard (cfg : Config) : GuardResult :=
  if isReadOnly cfg then .failed "EROFS" else .proceed

/-- Guard of SafeFilesystem.link (part_001 lines 601-612). -/
def linkGuard (cfg : Config) : GuardResult :=
  if isReadOnly cfg then .failed "EROFS" else .proceed

/-- Guard of SafeFilesystem.fcopy (part_001 lines 628-731). -/
def fcopyGuard (cfg : Config) : GuardResult :=
  if isReadOnly cfg then .failed "EROFS" else .proceed

end SafeFilesystem

namespace SftpFuse

open NodePath

/-- One record of the per-file-descriptor write buffer `this.data[fd]`:
the copied bytes and the file position they belong at. -/
structure WriteRec where
  buffer : List Nat
  position : Nat
deriving DecidableEq, Repr

/-- MAX_WRITE_BLOCK_LENGTH and MAX_READ_BLOCK_LENGTH (sftp-client.ts
lines 14-15). -/
def maxBlock : Nat := 1024 * 1024

/-- SftpFuse.write (sftp-fuse.ts lines 714-748), restricted to one file
descriptor: append the record (creating the buffer on first write) and
report whether the over-50-records flush is triggered. -/
def write (data : Option (List WriteRec)) (buffer : List Nat) (position : Nat) :
    List WriteRec × Bool :=
  match data with
  | none => ([⟨buffer, position⟩], false)
  | some recs =>
    let recs := recs ++ [⟨buffer, position⟩]
    (recs, decide (recs.length > 50))

/-- The inner coalescing loop of SftpFuse.flush: keep absorbing the next
record while its position equals the run position plus the accumulated
buffer length.  Returns the coalesced buffer and the remaining records. -/
def mergeRun (pos : Nat) (buf : List Nat) : List WriteRec → List Nat × List WriteRec
  | [] => (buf, [])
  | r :: rest =>
    if r.position = buf.length + pos then mergeRun pos (buf ++ r.buffer) rest
    else (buf, r :: rest)

/-- The outer loop of SftpFuse.flush (sftp-fuse.ts lines 373-412): take
the first record, coalesce the contiguous run it starts, emit one
writeToDisk call for the run, and continue with the rest. -/
def flushRuns : List WriteRec → List (List Nat × Nat)
  | [] => []
  | r :: rest =>
    ((mergeRun r.position r.buffer rest).1, r.position)
      :: flushRuns (mergeRun r.position r.buffer rest).2
termination_by l => l.length
decreasing_by
  have key : ∀ (l : List WriteRec) (buf : List Nat),
      (mergeRun r.position buf l).2.length ≤ l.length := by
    intro l
    induction l with
    | nil => intro buf; simp [mergeRun]
    | cons a t ih =>
      intro buf
      by_cases h : a.position = buf.length + r.position
      · simpa [mergeRun, h] using (ih (buf ++ a.buffer)).trans (Nat.le_succ _)
      · simp [mergeRun, h]
  simpa using Nat.lt_succ_of_le (key rest r.buffer)

/-- SftpFuse.writeToDisk (sftp-fuse.ts lines 750-772): slice the run
buffer into pieces of at most MAX_WRITE_BLOCK_LENGTH bytes and issue
one sftp write per piece at the advancing position. -/
def writeToDisk (buf : List Nat) (pos : Nat) : List (List Nat × Nat) :=
  if h : buf.length = 0 then []
  else
    let n := min maxBlock buf.length
    (buf.take n, pos) :: writeToDisk (buf.drop n) (pos + n)
termination_by buf.length
decreasing_by
  have hn : 0 < min maxBlock buf.length := by
    have : 0 < buf.length := Nat.pos_of_ne_zero h
    simp [maxBlock, Nat.lt_min, this]
  simpa using Nat.sub_lt (Nat.pos_of_ne_zero h) hn

/-- Calls that the adapter issues to the sftp client, as far as the
flush and release claims are concerned. -/
inductive SftpCall where
  | writeCall (buffer : List Nat) (position : Nat)
  | closeHandle (fd : Nat)
deriving DecidableEq, Repr

/-- The sequence of sftp write calls a flush of the given record list
performs: chunked writes of each coalesced run. -/
def flushCalls (data : List WriteRec) : List SftpCall :=
  (flushRuns data).flatMap fun rp => (writeToDisk rp.1 rp.2).map fun w => .writeCall w.1 w.2

/-- SftpFuse.fsync (sftp-fuse.ts lines 414-418) delegates to flush. -/
def fsyncCalls (data : List WriteRec) : List SftpCall := flushCalls data

/-- SftpFuse.release (sftp-fuse.ts lines 774-779): close the handle of
the descriptor.  The pending write buffer is neither flushed nor
dropped. -/
def release (data : Option (List WriteRec)) (fd : Nat) :
    List SftpCall × Option (List WriteRec) :=
  ([.closeHandle fd], data)

/-- The three TTL caches of the adapter, represented by their key sets
(all three caches enabled, the default configuration). -/
structure Caches where
  attr : List (List Char)
  dir : List (List Char)
  link : List (List Char)
deriving DecidableEq, Repr

/-- SftpFuse.clearCache (sftp-fuse.ts lines 844-850): drop the path from
the attribute cache and drop the path and its parent directory from the
directory cache.  The link cache is not touched. -/
def clearCache (c : Caches) (path : List Char) : Caches :=
  ⟨c.attr.filter fun k => k ≠ path,
   (c.dir.filter fun k => k ≠ path).filter fun k => k ≠ dirname path,
   c.link⟩

/-- Cache effect of SftpFuse.write (line 726). -/
def writeCacheEffect (c : Caches) (path : List Char) : Caches := clearCache c path

/-- Cache effect of SftpFuse.truncate (line 546). -/
def truncateCacheEffect (c : Caches) (path : List Char) : Caches := clearCache c path

/-- Cache effect of SftpFuse.unlink (line 797). -/
def unlinkCacheEffect (c : Caches) (path : List Char) : Caches := clearCache c path

/-- Cache effect of SftpFuse.rename (lines 804-807): clear both paths,
then delete both parents from the directory cache. -/
def renameCacheEffect (c : Caches) (src dest : List Char) : Caches :=
  let c := clearCache (clearCache c src) dest
  ⟨c.attr,
   (c.dir.filter fun k => k ≠ dirname src).filter fun k => k ≠ dirname dest,
   c.link⟩

/-- Cache effect of SftpFuse.link (lines 815-818). -/
def linkCacheEffect (c : Caches) (src dest : List Char) : Caches :=
  let c := clearCache (clearCache c src) dest
  ⟨c.attr,
   (c.dir.filter fun k => k ≠ dirname src).filter fun k => k ≠ dirname dest,
   c.link⟩

/-- Cache effect of SftpFuse.symlink (lines 825-826). -/
def symlinkCacheEffect (c : Caches) (src dest : List Char) : Caches :=
  clearCache (clearCache c src) dest

/-- Cache effect of SftpFuse.mkdir (line 833). -/
def mkdirCacheEffect (c : Caches) (path : List Char) : Caches := clearCache c path

/-- Cache effect of SftpFuse.rmdir (line 840). -/
def rmdirCacheEffect (c : Caches) (path : List Char) : Caches := clearCache c path

/-- Cache effect of SftpFuse.open (line 636), for any flags. -/
def openCacheEffect (c : Caches) (path : List Char) : Caches := clearCache c path

/-- What the catch branch of SftpFuse.flush (sftp-fuse.ts lines 400-411)
does with a failed flush. -/
inductive FlushOutcome where
  | reportSuccess
  | propagate
deriving DecidableEq, Repr

/-- The flush error branch: an error whose errno field is -2 is logged
and reported as success; any other error propagates through fuseError. -/
def flushCatch (errno : Int) : FlushOutcome :=
  if errno = -2 then .reportSuccess else .propagate

/-- The link cache entries, as stored values: a key may be present with
an absent target (the undefined stored by the error path). -/
abbrev LinkCache := List (List Char × Option String)

/-- Lookup of a key in the link cache (TTLCache has/get, modelled as a
map that stores whatever value set was given, including undefined). -/
def linkLookup (cache : LinkCache) (p : List Char) : Option (Option String) :=
  (cache.find? fun kv => kv.1 = p).map Prod.snd

/-- Store a value under a key in the link cache. -/
def linkStore (cache : LinkCache) (p : List Char) (v : Option String) : LinkCache :=
  (p, v) :: (List.filter (fun kv => kv.1 ≠ p) cache)

/-- SftpFuse.readlink (sftp-fuse.ts lines 556-569): answer from the link
cache when the key is present; otherwise issue the sftp readlink and,
whether it succeeds or fails, store the (possibly undefined) target in
the cache before invoking the FUSE callback.  Returns the new cache,
the callback result (errno, target), and whether a server request was
issued. -/
def readlink (cache : LinkCache) (p : List Char) (server : Except Int String) :
    LinkCache × (Int × Option String) × Bool :=
  match linkLookup cache p with
  | some t => (cache, (0, t), false)
  | none =>
    match server with
    | .ok target => (linkStore cache p (some target), (0, some target), true)
    | .error e => (linkStore cache p none, (e, none), true)

end SftpFuse

namespace NodePath

/-- A plain path segment: nonempty, not a dot or dot-dot segment, and
free of separators.  Segments of this shape pass through normalization
unchanged. -/
abbrev goodSeg (s : List Char) : Prop :=
  s ≠ [] ∧ s ≠ ['.'] ∧ s ≠ ['.', '.'] ∧ '/' ∉ s

/-- Canonical shape of a normalized absolute path: the separator, the
plain segments interleaved with separators, and an optional trailing
separator (ignored when there are no segments). -/
def mkAbs (segs : List (List Char)) (trail : Bool) : List Char :=
  if segs = [] then ['/']
  else '/' :: (interSlash segs ++ if trail then ['/'] else [])

end NodePath

namespace SftpFuse

/-- Number of bytes an sftp call writes. -/
def callLen : SftpCall → Nat
  | .writeCall b _ => b.length
  | .closeHandle _ => 0

/-- Total number of buffered bytes in a record list. -/
def recBytes (l : List WriteRec) : Nat := (l.map fun r => r.buffer.length).sum

end SftpFuse

/-- C2: when the safe filesystem is in read-only mode, a call to open
with flags other than "r" and every call to write, setstat, fsetstat,
unlink, mkdir, rmdir, rename, symlink, link and fcopy returns an EROFS
failure produced before any access to the underlying filesystem, so the
underlying filesystem is untouched. -/
theorem C2_readonly_blocks_mutations (cfg : SafeFilesystem.Config)
    (h : SafeFilesystem.isReadOnly cfg = true) :
    (∀ flags free, SafeFilesystem.flagsIsR flags = false →
      SafeFilesystem.openGuard cfg flags free = .failed "EROFS")
    ∧ SafeFilesystem.writeGuard cfg = .failed "EROFS"
    ∧ SafeFilesystem.setstatGuard cfg = .failed "EROFS"
    ∧ SafeFilesystem.fsetstatGuard cfg = .failed "EROFS"
    ∧ SafeFilesystem.unlinkGuard cfg = .failed "EROFS"
    ∧ SafeFilesystem.mkdirGuard cfg = .failed "EROFS"
    ∧ SafeFilesystem.rmdirGuard cfg = .failed "EROFS"
    ∧ SafeFilesystem.renameGuard cfg = .failed "EROFS"
    ∧ SafeFilesystem.symlinkGuard cfg = .failed "EROFS"
    ∧ SafeFilesystem.linkGuard cfg = .failed "EROFS"
    ∧ SafeFilesystem.fcopyGuard cfg = .failed "EROFS" := by
  refine ⟨fun flags free hf => ?_, ?_, ?_, ?_, ?_, ?_, ?_, ?_, ?_, ?_, ?_⟩ <;>
    simp [SafeFilesystem.openGuard, SafeFilesystem.writeGuard,
      SafeFilesystem.setstatGuard, SafeFilesystem.fsetstatGuard,
      SafeFilesystem.unlinkGuard, SafeFilesystem.mkdirGuard,
      SafeFilesystem.rmdirGuard, SafeFilesystem.renameGuard,
      SafeFilesystem.symlinkGuard, SafeFilesystem.linkGuard,
      SafeFilesystem.fcopyGuard, h, *]

/-- Witness for C2 at a concrete read-only configuration. -/
theorem C2_readonly_blocks_mutations_witness :
    SafeFilesystem.isReadOnly ⟨true, false⟩ = true
    ∧ SafeFilesystem.openGuard ⟨true, false⟩ (.str ['w']) true =
        SafeFilesystem.GuardResult.failed "EROFS"
    ∧ SafeFilesystem.writeGuard ⟨true, false⟩ =
        SafeFilesystem.GuardResult.failed "EROFS" :=
  ⟨by decide,
   (C2_readonly_blocks_mutations ⟨true, false⟩ (by decide)).1 (.str ['w']) true
     (by decide),
   (C2_readonly_blocks_mutations ⟨true, false⟩ (by decide)).2.1⟩

/-- C3 counterexample: after five consecutive zero-length DATA responses
(the original attempt and four retries) the read has not surfaced any
error; it has issued a fifth retry and is still pending, and the parser
invocation with retry counter 4 retries instead of failing with EIO. -/
theorem C3_counterexample :
    SftpClientCore.readLoop 0 1024 7 (List.replicate 5 (.data 0)) = none
    ∧ SftpClientCore.parseData 4 0 7 (.data 0) = .retry 5 7 0 := by decide

/-- C3 amended: a zero-length DATA response is retried at the same
offset while the retry counter is at most 4, so the read is retried up
to five times; the EIO error (errno 55) surfaces only when the response
to the fifth retry is also empty, i.e. on the sixth consecutive
zero-length DATA response. -/
theorem C3_amended (r reqLen pos : Nat) (hr : r ≤ 4) :
    SftpClientCore.parseData r reqLen pos (.data 0) = .retry (r + 1) pos 0
    ∧ SftpClientCore.parseData 5 reqLen pos (.data 0) = .fail "EIO" 55
    ∧ SftpClientCore.readLoop 0 reqLen pos (List.replicate 6 (.data 0)) =
        some (.fail "EIO" 55)
    ∧ SftpClientCore.readLoop 0 reqLen pos (List.replicate 5 (.data 0)) = none := by
  have h04 : ¬ (0 > reqLen) := by omega
  have hr4 : ¬ (r > 4) := by omega
  refine ⟨?_, ?_, ?_, ?_⟩
  · simp [SftpClientCore.parseData, h04, hr4]
  · simp [SftpClientCore.parseData, h04]
  · simp [SftpClientCore.readLoop, SftpClientCore.parseData, h04,
      List.replicate_succ]
  · simp [SftpClientCore.readLoop, SftpClientCore.parseData, h04,
      List.replicate_succ]

/-- Witness for C3 at a concrete retry counter. -/
theorem C3_amended_witness :
    (0 : Nat) ≤ 4
    ∧ SftpClientCore.parseData 0 1024 7 (.data 0) = .retry 1 7 0 :=
  ⟨by decide, (C3_amended 0 1024 7 (by decide)).1⟩

/-- C4 counterexample: a close with code 1011 on a channel that was
never established emits ECONNRESET (carrying the server reason), not
ECONNREFUSED. -/
theorem C4_counterexample :
    WebSocketChannel.closeEmission false false 1011 "backend crashed" =
      some (some ("ECONNRESET", "backend crashed"))
    ∧ "ECONNRESET" ≠ "ECONNREFUSED" := by decide

/-- C4 amended: the ECONNREFUSED substitution happens only when the
close status maps to a non-error (code 1000) and the channel was never
established; whenever the close code maps to an error, that error is
emitted unchanged whether or not the channel was established, so code
1011 always yields ECONNRESET with the server-supplied reason. -/
theorem C4_amended (reason : String) (established : Bool) (code : Nat)
    (e : String × String)
    (hmap : WebSocketChannel.interpretCloseStatus code reason = .inr e) :
    WebSocketChannel.closeEmission false true 1011 reason =
      some (some ("ECONNRESET", reason))
    ∧ WebSocketChannel.closeEmission false false 1011 reason =
      some (some ("ECONNRESET", reason))
    ∧ WebSocketChannel.closeEmission false false 1000 reason =
      some (some ("ECONNREFUSED", "Connection refused"))
    ∧ WebSocketChannel.closeEmission false true 1000 reason = some none
    ∧ WebSocketChannel.closeEmission false established code reason =
      some (some e)
    ∧ WebSocketChannel.closeEmission true established code reason = none := by
  refine ⟨?_, ?_, ?_, ?_, ?_, ?_⟩
  · simp [WebSocketChannel.closeEmission, WebSocketChannel.interpretCloseStatus]
  · simp [WebSocketChannel.closeEmission, WebSocketChannel.interpretCloseStatus]
  · simp [WebSocketChannel.closeEmission, WebSocketChannel.interpretCloseStatus]
  · simp [WebSocketChannel.closeEmission, WebSocketChannel.interpretCloseStatus]
  · simp [WebSocketChannel.closeEmission, hmap]
  · simp [WebSocketChannel.closeEmission]

/-- Witness for C4 at a concrete mapped error close. -/
theorem C4_amended_witness :
    WebSocketChannel.interpretCloseStatus 1002 "x" =
      .inr ("EPROTOTYPE", "Protocol error")
    ∧ WebSocketChannel.closeEmission false true 1002 "x" =
      some (some ("EPROTOTYPE", "Protocol error")) :=
  ⟨by decide,
   (C4_amended "x" true 1002 ("EPROTOTYPE", "Protocol error")
     (by decide)).2.2.2.2.1⟩

/-- C5 counterexample: a non-VERSION handshake response closes the
channel with code 3002, not 1002. -/
theorem C5_counterexample :
    SftpClientCore.checkVersionResponse 101 3 =
      .protocolViolation 3002 "Protocol violation"
    ∧ SftpClientCore.InitOutcome.closeCode
        (SftpClientCore.checkVersionResponse 101 3) ≠ some 1002 := by decide

/-- C5 amended: during the INIT/VERSION handshake, a response whose type
is not VERSION or whose version is not 3 closes the channel with close
code 3002 and surfaces a protocol error; every close the handshake
check performs uses code 3002. -/
theorem C5_amended (ptype version : Nat) :
    (ptype ≠ 2 → SftpClientCore.checkVersionResponse ptype version =
      .protocolViolation 3002 "Protocol violation")
    ∧ (version ≠ 3 → SftpClientCore.checkVersionResponse 2 version =
      .versionMismatch 3002 5 "Unexpected protocol version")
    ∧ SftpClientCore.checkVersionResponse 2 3 = .ok
    ∧ ∀ c, SftpClientCore.InitOutcome.closeCode
        (SftpClientCore.checkVersionResponse ptype version) = some c →
        c = 3002 := by
  refine ⟨fun h => ?_, fun h => ?_, by decide, fun c hc => ?_⟩
  · simp [SftpClientCore.checkVersionResponse, h]
  · simp [SftpClientCore.checkVersionResponse, h]
  · by_cases h1 : ptype = 2
    · by_cases h2 : version = 3
      · simp [SftpClientCore.checkVersionResponse, h1, h2,
          SftpClientCore.InitOutcome.closeCode] at hc
      · simp [SftpClientCore.checkVersionResponse, h1, h2,
          SftpClientCore.InitOutcome.closeCode] at hc
        omega
    · simp [SftpClientCore.checkVersionResponse, h1,
        SftpClientCore.InitOutcome.closeCode] at hc
      omega

/-- Witness for C5 at a concrete mismatching packet type. -/
theorem C5_amended_witness :
    (101 : Nat) ≠ 2
    ∧ SftpClientCore.checkVersionResponse 101 5 =
      .protocolViolation 3002 "Protocol violation" :=
  ⟨by decide, (C5_amended 101 5).1 (by decide)⟩

/-- C6 counterexample: with the counter at 5 while request id 5 is still
in flight, getRequest hands out id 5 again rather than skipping it, and
emitting the packet throws the Duplicate request abort. -/
theorem C6_counterexample :
    SftpClientCore.getRequest false ⟨some 5, [5], false⟩ =
      .ok (some 5, ⟨some 6, [5], false⟩)
    ∧ (5 : Int) ∈ ([5] : List Int)
    ∧ SftpClientCore.execute (some 5) ⟨some 5, [5], false⟩ =
      .error "Duplicate request" := by
  have h6 : SftpClientCore.toInt32 6 = 6 := by
    norm_num [SftpClientCore.toInt32]
  refine ⟨?_, by decide, ?_⟩
  · simp [SftpClientCore.getRequest, h6]
  · simp [SftpClientCore.execute]

/-- C6 amended: request ids are allocated by a counter that INIT sets to
1 and every later allocation increments with a signed 32-bit wrap
(congruent to the successor modulo 2^32); an id currently in use is not
skipped: getRequest hands it out unchanged and emitting it throws
Duplicate request; INIT itself carries a null id and occupies only the
null slot of the request table, no numeric id. -/
theorem C6_amended (i : Int) (fl : List Int) (ns : Bool) (oid : Option Int) :
    SftpClientCore.getRequest true ⟨none, fl, ns⟩ = .ok (none, ⟨some 1, fl, ns⟩)
    ∧ SftpClientCore.getRequest false ⟨some i, fl, ns⟩ =
        .ok (some i, ⟨some (SftpClientCore.toInt32 (i + 1)), fl, ns⟩)
    ∧ SftpClientCore.toInt32 (i + 1) % 2 ^ 32 = (i + 1) % 2 ^ 32
    ∧ (i ∈ fl → SftpClientCore.execute (some i) ⟨oid, fl, ns⟩ =
        .error "Duplicate request")
    ∧ (i ∉ fl → SftpClientCore.execute (some i) ⟨oid, fl, ns⟩ =
        .ok ⟨oid, i :: fl, ns⟩)
    ∧ SftpClientCore.execute none ⟨oid, fl, ns⟩ = .ok ⟨oid, fl, true⟩ := by
  refine ⟨rfl, rfl, ?_, fun h => ?_, fun h => ?_, rfl⟩
  · unfold SftpClientCore.toInt32; omega
  · simp [SftpClientCore.execute, h]
  · simp [SftpClientCore.execute, h]

/-- Witness for C6 at a concrete in-flight id. -/
theorem C6_amended_witness :
    (3 : Int) ∈ ([3] : List Int)
    ∧ SftpClientCore.execute (some 3) ⟨some 7, [3], false⟩ =
      .error "Duplicate request" :=
  ⟨by decide, (C6_amended 3 [3] false (some 7)).2.2.2.1 (by decide)⟩

/-- C9 counterexample: an ENOENT error carries errno 34 in the client
taxonomy, and the flush error branch propagates it instead of reporting
success. -/
theorem C9_counterexample :
    SftpClientCore.createError 2 = ("ENOENT", 34)
    ∧ SftpFuse.flushCatch (SftpClientCore.createError 2).2 = .propagate := by
  decide

/-- C9 amended: the flush error branch reports success exactly for
errors whose errno is -2, which the client taxonomy assigns to EFAILURE
(STATUS codes FAILURE and BAD_MESSAGE); ENOENT errors carry errno 34
and therefore propagate to the caller. -/
theorem C9_amended (e : Int) :
    (SftpFuse.flushCatch e = .reportSuccess ↔ e = -2)
    ∧ SftpClientCore.createError 2 = ("ENOENT", 34)
    ∧ SftpClientCore.createError 4 = ("EFAILURE", -2)
    ∧ SftpClientCore.createError 5 = ("EFAILURE", -2)
    ∧ SftpFuse.flushCatch 34 = .propagate
    ∧ SftpFuse.flushCatch (-2) = .reportSuccess := by
  refine ⟨?_, by decide, by decide, by decide, by decide, by decide⟩
  unfold SftpFuse.flushCatch
  by_cases h : e = -2 <;> simp [h]

/-- C10: when readlink fails, the error-path callback still stores the
undefined target in the link cache, so a second readlink on the same
path (within the TTL) is answered from the cache with status 0 and an
absent target, without contacting the server. -/
theorem C10_readlink_error_negative_cache (cache : SftpFuse.LinkCache)
    (p : List Char) (e : Int) (server2 : Except Int String)
    (h : SftpFuse.linkLookup cache p = none) :
    SftpFuse.readlink cache p (.error e) =
      (SftpFuse.linkStore cache p none, (e, none), true)
    ∧ SftpFuse.linkLookup (SftpFuse.linkStore cache p none) p = some none
    ∧ SftpFuse.readlink (SftpFuse.linkStore cache p none) p server2 =
      (SftpFuse.linkStore cache p none, (0, none), false) := by
  have hl : SftpFuse.linkLookup (SftpFuse.linkStore cache p none) p =
      some none := by
    simp [SftpFuse.linkLookup, SftpFuse.linkStore, List.find?]
  exact ⟨by simp [SftpFuse.readlink, h], hl, by simp [SftpFuse.readlink, hl]⟩

/-- Witness for C10 at a concrete empty cache. -/
theorem C10_readlink_error_negative_cache_witness :
    SftpFuse.readlink [] ['a'] (.error 34) =
      (SftpFuse.linkStore [] ['a'] none, (34, none), true)
    ∧ SftpFuse.linkLookup (SftpFuse.linkStore [] ['a'] none) ['a'] = some none
    ∧ SftpFuse.readlink (SftpFuse.linkStore [] ['a'] none) ['a'] (.ok "x") =
      (SftpFuse.linkStore [] ['a'] none, (0, none), false) :=
  C10_readlink_error_negative_cache [] ['a'] 34 (.ok "x") (by decide)

theorem flushRuns_nil : SftpFuse.flushRuns [] = [] := by
  rw [SftpFuse.flushRuns]

theorem flushRuns_cons (r : SftpFuse.WriteRec) (rest : List SftpFuse.WriteRec) :
    SftpFuse.flushRuns (r :: rest) =
      ((SftpFuse.mergeRun r.position r.buffer rest).1, r.position)
        :: SftpFuse.flushRuns (SftpFuse.mergeRun r.position r.buffer rest).2 := by
  rw [SftpFuse.flushRuns]

theorem writeToDisk_eq (buf : List Nat) (pos : Nat) :
    SftpFuse.writeToDisk buf pos =
      if buf.length = 0 then []
      else
        (buf.take (min SftpFuse.maxBlock buf.length), pos) ::
          SftpFuse.writeToDisk (buf.drop (min SftpFuse.maxBlock buf.length))
            (pos + min SftpFuse.maxBlock buf.length) := by
  rw [SftpFuse.writeToDisk]
  by_cases h : buf.length = 0 <;> simp [h]

theorem mergeRun_rest_length (pos : Nat) (buf : List Nat)
    (l : List SftpFuse.WriteRec) :
    (SftpFuse.mergeRun pos buf l).2.length ≤ l.length := by
  induction l generalizing buf with
  | nil => simp [SftpFuse.mergeRun]
  | cons a t ih =>
    by_cases h : a.position = buf.length + pos
    · simpa [SftpFuse.mergeRun, h] using
        (ih (buf ++ a.buffer)).trans (Nat.le_succ _)
    · simp [SftpFuse.mergeRun, h]

theorem mergeRun_bytes (pos : Nat) (buf : List Nat)
    (l : List SftpFuse.WriteRec) :
    (SftpFuse.mergeRun pos buf l).1.length
      + SftpFuse.recBytes (SftpFuse.mergeRun pos buf l).2
      = buf.length + SftpFuse.recBytes l := by
  induction l generalizing buf with
  | nil => simp [SftpFuse.mergeRun, SftpFuse.recBytes]
  | cons a t ih =>
    by_cases h : a.position = buf.length + pos
    · have hh := ih (buf ++ a.buffer)
      simp [SftpFuse.mergeRun, h, SftpFuse.recBytes] at hh ⊢
      omega
    · simp [SftpFuse.mergeRun, h, SftpFuse.recBytes]

theorem writeToDisk_bounds :
    ∀ (n : Nat) (buf : List Nat) (pos : Nat), buf.length ≤ n →
      (∀ w ∈ SftpFuse.writeToDisk buf pos, w.1.length ≤ SftpFuse.maxBlock)
      ∧ ((SftpFuse.writeToDisk buf pos).map fun w => w.1.length).sum
          = buf.length := by
  intro n
  induction n with
  | zero =>
    intro buf pos hb
    have h0 : buf.length = 0 := Nat.le_zero.mp hb
    rw [writeToDisk_eq]
    simp [h0]
  | succ n ih =>
    intro buf pos hb
    by_cases h0 : buf.length = 0
    · rw [writeToDisk_eq]; simp [h0]
    · have hmin1 : 1 ≤ min SftpFuse.maxBlock buf.length := by
        have h1 : 0 < buf.length := Nat.pos_of_ne_zero h0
        simp only [SftpFuse.maxBlock]
        omega
      have hrec := ih (buf.drop (min SftpFuse.maxBlock buf.length))
        (pos + min SftpFuse.maxBlock buf.length)
        (by simp only [List.length_drop]; omega)
      rw [writeToDisk_eq]
      simp only [h0, if_false]
      constructor
      · intro w hw
        rcases List.mem_cons.mp hw with hw | hw
        · subst hw
          simp [Nat.min_le_left]
        · exact hrec.1 w hw
      · simp only [List.map_cons, List.sum_cons, hrec.2]
        simp only [List.length_take, List.length_drop]
        omega

theorem flushRuns_bytes :
    ∀ (n : Nat) (l : List SftpFuse.WriteRec), l.length ≤ n →
      ((SftpFuse.flushRuns l).map fun rp => rp.1.length).sum
        = SftpFuse.recBytes l := by
  intro n
  induction n with
  | zero =>
    intro l hl
    have : l = [] := List.length_eq_zero.mp (Nat.le_zero.mp hl)
    subst this
    simp [flushRuns_nil, SftpFuse.recBytes]
  | succ n ih =>
    intro l hl
    cases l with
    | nil => simp [flushRuns_nil, SftpFuse.recBytes]
    | cons r rest =>
      rw [flushRuns_cons]
      have hlen : (SftpFuse.mergeRun r.position r.buffer rest).2.length ≤ n := by
        have h1 := mergeRun_rest_length r.position r.buffer rest
        have h2 : rest.length ≤ n := by simpa using Nat.succ_le_succ_iff.mp hl
        omega
      have h2 := ih _ hlen
      have h3 := mergeRun_bytes r.position r.buffer rest
      simp only [List.map_cons, List.sum_cons, h2]
      simp [SftpFuse.recBytes] at h3 ⊢
      omega

theorem flushCalls_chunk_le (l : List SftpFuse.WriteRec) :
    ∀ c ∈ SftpFuse.flushCalls l, SftpFuse.callLen c ≤ SftpFuse.maxBlock := by
  intro c hc
  simp only [SftpFuse.flushCalls, List.mem_flatMap, List.mem_map] at hc
  obtain ⟨rp, _, w, hw, rfl⟩ := hc
  simpa [SftpFuse.callLen] using
    (writeToDisk_bounds rp.1.length rp.1 rp.2 le_rfl).1 w hw

theorem flushCalls_bytes (l : List SftpFuse.WriteRec) :
    ((SftpFuse.flushCalls l).map SftpFuse.callLen).sum = SftpFuse.recBytes l := by
  have haux : ∀ runs : List (List Nat × Nat),
      ((runs.flatMap fun rp =>
          (SftpFuse.writeToDisk rp.1 rp.2).map fun w =>
            SftpFuse.SftpCall.writeCall w.1 w.2).map SftpFuse.callLen).sum
        = (runs.map fun rp => rp.1.length).sum := by
    intro runs
    induction runs with
    | nil => simp
    | cons a t ih =>
      simp only [List.flatMap_cons, List.map_append, List.sum_append, ih,
        List.map_cons, List.sum_cons, List.map_map]
      have hw := (writeToDisk_bounds a.1.length a.1 a.2 le_rfl).2
      have hcomp : (SftpFuse.callLen ∘ fun w : List Nat × Nat =>
          SftpFuse.SftpCall.writeCall w.1 w.2)
          = fun w : List Nat × Nat => w.1.length := rfl
      rw [hcomp, hw]
  rw [SftpFuse.flushCalls, haux]
  exact flushRuns_bytes l.length l le_rfl

/-- C7 counterexample: release with a pending buffered record only
closes the handle; it issues no server write and leaves the buffered
record in place, so release does not coalesce and write the buffer. -/
theorem C7_counterexample :
    SftpFuse.release (some [⟨[7], 0⟩]) 3 =
      ([SftpFuse.SftpCall.closeHandle 3], some [⟨[7], 0⟩])
    ∧ SftpFuse.SftpCall.writeCall [7] 0 ∉
        (SftpFuse.release (some [⟨[7], 0⟩]) 3).1 := by decide

/-- C7 amended: each write appends a record to the per-descriptor buffer
and triggers a flush exactly when more than 50 records accumulate; on
flush and on fsync (which delegates to flush) adjacent contiguous
records are concatenated into one buffer and written in chunks of at
most 1 MiB with the total byte count preserved; release, however, only
closes the handle and neither flushes nor drops the buffered records. -/
theorem C7_amended (recs : List SftpFuse.WriteRec) (buffer : List Nat)
    (position fd : Nat) (data : Option (List SftpFuse.WriteRec))
    (r1 r2 : SftpFuse.WriteRec) (rest : List SftpFuse.WriteRec)
    (hcontig : r2.position = r1.position + r1.buffer.length) :
    SftpFuse.write none buffer position = ([⟨buffer, position⟩], false)
    ∧ SftpFuse.write (some recs) buffer position =
        (recs ++ [⟨buffer, position⟩], decide (recs.length + 1 > 50))
    ∧ SftpFuse.flushRuns (r1 :: r2 :: rest) =
        SftpFuse.flushRuns (⟨r1.buffer ++ r2.buffer, r1.position⟩ :: rest)
    ∧ (∀ c ∈ SftpFuse.flushCalls recs, SftpFuse.callLen c ≤ SftpFuse.maxBlock)
    ∧ ((SftpFuse.flushCalls recs).map SftpFuse.callLen).sum =
        SftpFuse.recBytes recs
    ∧ SftpFuse.fsyncCalls recs = SftpFuse.flushCalls recs
    ∧ SftpFuse.release data fd = ([SftpFuse.SftpCall.closeHandle fd], data) := by
  refine ⟨rfl, by simp [SftpFuse.write], ?_, flushCalls_chunk_le recs,
    flushCalls_bytes recs, rfl, rfl⟩
  have hmerge : SftpFuse.mergeRun r1.position r1.buffer (r2 :: rest) =
      SftpFuse.mergeRun r1.position (r1.buffer ++ r2.buffer) rest := by
    simp [SftpFuse.mergeRun, hcontig, Nat.add_comm]
  rw [flushRuns_cons, flushRuns_cons, hmerge]

/-- Witness for C7 with a concrete pair of contiguous records. -/
theorem C7_amended_witness :
    (⟨[8, 9], 5⟩ : SftpFuse.WriteRec).position =
      (⟨[7], 4⟩ : SftpFuse.WriteRec).position +
        (⟨[7], 4⟩ : SftpFuse.WriteRec).buffer.length
    ∧ SftpFuse.flushRuns [⟨[7], 4⟩, ⟨[8, 9], 5⟩] =
        SftpFuse.flushRuns [⟨[7] ++ [8, 9], 4⟩] :=
  ⟨by decide,
   (C7_amended [] [] 0 0 none ⟨[7], 4⟩ ⟨[8, 9], 5⟩ [] (by decide)).2.2.1⟩

/-- C8 counterexample: unlink on a path whose link cache entry exists
leaves that link cache entry in place, so a mutating operation does not
invalidate the link cache entry of the path. -/
theorem C8_counterexample :
    SftpFuse.unlinkCacheEffect ⟨[['a']], [['a']], [['a']]⟩ ['a'] =
      ⟨[], [], [['a']]⟩
    ∧ ['a'] ∈ (SftpFuse.unlinkCacheEffect ⟨[['a']], [['a']], [['a']]⟩ ['a']).link := by
  decide

/-- C8 amended: every mutating adapter operation that goes through
clearCache (write, truncate, unlink, mkdir, rmdir, open, and rename,
link, symlink for both of their paths) removes the path's attribute
cache entry and the directory cache entries of the path and of its
parent directory, but never touches the link cache. -/
theorem C8_amended (c : SftpFuse.Caches) (p src dest : List Char) :
    (SftpFuse.clearCache c p).link = c.link
    ∧ p ∉ (SftpFuse.clearCache c p).attr
    ∧ p ∉ (SftpFuse.clearCache c p).dir
    ∧ NodePath.dirname p ∉ (SftpFuse.clearCache c p).dir
    ∧ SftpFuse.writeCacheEffect c p = SftpFuse.clearCache c p
    ∧ SftpFuse.truncateCacheEffect c p = SftpFuse.clearCache c p
    ∧ SftpFuse.unlinkCacheEffect c p = SftpFuse.clearCache c p
    ∧ SftpFuse.mkdirCacheEffect c p = SftpFuse.clearCache c p
    ∧ SftpFuse.rmdirCacheEffect c p = SftpFuse.clearCache c p
    ∧ SftpFuse.openCacheEffect c p = SftpFuse.clearCache c p
    ∧ (SftpFuse.renameCacheEffect c src dest).link = c.link
    ∧ (SftpFuse.linkCacheEffect c src dest).link = c.link
    ∧ (SftpFuse.symlinkCacheEffect c src dest).link = c.link
    ∧ src ∉ (SftpFuse.renameCacheEffect c src dest).attr
    ∧ dest ∉ (SftpFuse.renameCacheEffect c src dest).attr := by
  refine ⟨rfl, ?_, ?_, ?_, rfl, rfl, rfl, rfl, rfl, rfl, rfl, rfl, rfl, ?_, ?_⟩ <;>
    simp [SftpFuse.clearCache, SftpFuse.renameCacheEffect, List.mem_filter]

/-- Witness for C8 is not required (no hypotheses), but the theorem is
exercised at a concrete cache anyway. -/
theorem C8_amended_witness :
    (SftpFuse.clearCache ⟨[], [], [['b']]⟩ ['b']).link = [['b']] :=
  (C8_amended ⟨[], [], [['b']]⟩ ['b'] [] []).1

namespace NodePath

theorem splitOnSlash_cons_slash (rest : List Char) :
    splitOnSlash ('/' :: rest) = [] :: splitOnSlash rest := by
  simp [splitOnSlash]

theorem splitOnSlash_cons_ne (c : Char) (rest : List Char) (h : ¬ c = '/') :
    splitOnSlash (c :: rest) =
      match splitOnSlash rest with
      | [] => [[c]]
      | s :: ss => (c :: s) :: ss := by
  simp [splitOnSlash, h]

theorem splitOnSlash_ne_nil (p : List Char) : splitOnSlash p ≠ [] := by
  cases p with
  | nil => simp [splitOnSlash]
  | cons c rest =>
    by_cases h : c = '/'
    · subst h; rw [splitOnSlash_cons_slash]; simp
    · rw [splitOnSlash_cons_ne c rest h]
      cases hs : splitOnSlash rest <;> simp

theorem splitOnSlash_append (a b : List Char) :
    splitOnSlash (a ++ '/' :: b) = splitOnSlash a ++ splitOnSlash b := by
  induction a with
  | nil => rw [List.nil_append, splitOnSlash_cons_slash]; rfl
  | cons c a' ih =>
    rw [List.cons_append]
    by_cases h : c = '/'
    · subst h
      rw [splitOnSlash_cons_slash, splitOnSlash_cons_slash, ih, List.cons_append]
    · rw [splitOnSlash_cons_ne c _ h, splitOnSlash_cons_ne c _ h, ih]
      cases hs : splitOnSlash a' with
      | nil => exact absurd hs (splitOnSlash_ne_nil a')
      | cons s ss => simp

theorem mem_splitOnSlash_no_slash (p : List Char) :
    ∀ s ∈ splitOnSlash p, '/' ∉ s := by
  induction p with
  | nil => simp [splitOnSlash]
  | cons c rest ih =>
    by_cases h : c = '/'
    · subst h
      rw [splitOnSlash_cons_slash]
      intro s hs
      rcases List.mem_cons.mp hs with rfl | hs
      · simp
      · exact ih s hs
    · rw [splitOnSlash_cons_ne c rest h]
      cases hs : splitOnSlash rest with
      | nil =>
        intro t ht
        have ht' : t = [c] := by simpa using ht
        subst ht'
        intro hc
        have hceq : '/' = c := by simpa using hc
        exact h hceq.symm
      | cons s ss =>
        intro t ht
        rcases List.mem_cons.mp ht with rfl | ht
        · have hmem : '/' ∉ s := ih s (by rw [hs]; exact List.mem_cons_self s ss)
          intro hc
          rcases List.mem_cons.mp hc with hc | hc
          · exact h hc.symm
          · exact hmem hc
        · exact ih t (by rw [hs]; exact List.mem_cons_of_mem _ ht)

theorem splitOnSlash_no_slash_eq (s : List Char) (h : '/' ∉ s) :
    splitOnSlash s = [s] := by
  induction s with
  | nil => rfl
  | cons c rest ih =>
    have hc : ¬ c = '/' := by
      intro hh
      exact h (by simp [hh])
    have hr : '/' ∉ rest := fun hh => h (List.mem_cons_of_mem _ hh)
    rw [splitOnSlash_cons_ne c rest hc, ih hr]

theorem splitOnSlash_interSlash (segs : List (List Char)) (hne : segs ≠ [])
    (h : ∀ s ∈ segs, '/' ∉ s) : splitOnSlash (interSlash segs) = segs := by
  induction segs with
  | nil => exact absurd rfl hne
  | cons s rest ih =>
    cases rest with
    | nil => exact splitOnSlash_no_slash_eq s (h s (by simp))
    | cons t ts =>
      have h1 : interSlash (s :: t :: ts) = s ++ '/' :: interSlash (t :: ts) := rfl
      rw [h1, splitOnSlash_append,
        splitOnSlash_no_slash_eq s (h s (by simp)),
        ih (by simp) (fun u hu => h u (List.mem_cons_of_mem _ hu))]
      rfl

end NodePath

namespace NodePath

theorem normStep_empty (ab : Bool) (res : List (List Char)) :
    normStep ab res [] = res := by
  simp [normStep]

theorem normStep_good (ab : Bool) (res : List (List Char)) (s : List Char)
    (h : goodSeg s) : normStep ab res s = res ++ [s] := by
  obtain ⟨h1, h2, h3, _⟩ := h
  simp [normStep, h1, h2, h3]

theorem foldl_normStep_clean (ab : Bool) (segs : List (List Char))
    (h : ∀ s ∈ segs, s = [] ∨ goodSeg s) (res : List (List Char)) :
    segs.foldl (normStep ab) res = res ++ segs.filter (fun s => s ≠ []) := by
  induction segs generalizing res with
  | nil => simp
  | cons s rest ih =>
    rcases h s (by simp) with hs | hs
    · subst hs
      rw [List.foldl_cons, normStep_empty,
        ih (fun u hu => h u (List.mem_cons_of_mem _ hu)) res]
      simp
    · rw [List.foldl_cons, normStep_good ab res s hs,
        ih (fun u hu => h u (List.mem_cons_of_mem _ hu)) (res ++ [s])]
      simp [List.filter_cons, hs.1]

theorem foldl_normStep_false_good (segs : List (List Char))
    (hh : ∀ s ∈ segs, '/' ∉ s) (res : List (List Char))
    (hres : ∀ s ∈ res, goodSeg s) :
    ∀ s ∈ segs.foldl (normStep false) res, goodSeg s := by
  induction segs generalizing res with
  | nil => simpa using hres
  | cons s rest ih =>
    rw [List.foldl_cons]
    apply ih (fun u hu => hh u (List.mem_cons_of_mem _ hu))
    intro u hu
    unfold normStep at hu
    by_cases h1 : s = [] ∨ s = ['.']
    · rw [if_pos h1] at hu
      exact hres u hu
    · rw [if_neg h1] at hu
      by_cases h2 : s = ['.', '.']
      · rw [if_pos h2] at hu
        by_cases h3 : res ≠ [] ∧ res.getLast? ≠ some ['.', '.']
        · rw [if_pos h3] at hu
          exact hres u (List.dropLast_subset _ hu)
        · rw [if_neg h3] at hu
          simp only [Bool.false_eq_true, if_false] at hu
          exact hres u hu
      · rw [if_neg h2] at hu
        rcases List.mem_append.mp hu with hu | hu
        · exact hres u hu
        · have hu' : u = s := by simpa using hu
          subst hu'
          push_neg at h1
          exact ⟨h1.1, h1.2, h2, hh u (by simp)⟩

theorem normSegs_false_good (segs : List (List Char))
    (h : ∀ s ∈ segs, '/' ∉ s) :
    ∀ s ∈ normSegs false segs, goodSeg s :=
  foldl_normStep_false_good segs h [] (by simp)

theorem interSlash_ne_nil (segs : List (List Char)) (hne : segs ≠ [])
    (h : ∀ s ∈ segs, s ≠ []) : interSlash segs ≠ [] := by
  cases segs with
  | nil => exact absurd rfl hne
  | cons s rest =>
    cases rest with
    | nil => exact h s (by simp)
    | cons t ts =>
      have h1 : interSlash (s :: t :: ts) = s ++ '/' :: interSlash (t :: ts) := rfl
      rw [h1]
      simp

theorem interSlash_append (A B : List (List Char)) (hA : A ≠ []) (hB : B ≠ []) :
    interSlash (A ++ B) = interSlash A ++ '/' :: interSlash B := by
  induction A with
  | nil => exact absurd rfl hA
  | cons s rest ih =>
    cases rest with
    | nil =>
      cases B with
      | nil => exact absurd rfl hB
      | cons t ts => rfl
    | cons t ts =>
      have h1 : interSlash ((s :: t :: ts) ++ B) =
          s ++ '/' :: interSlash ((t :: ts) ++ B) := rfl
      have h2 : interSlash (s :: t :: ts) = s ++ '/' :: interSlash (t :: ts) := rfl
      rw [h1, h2, ih (by simp)]
      simp

theorem lastIsSlash_interSlash (segs : List (List Char))
    (h : ∀ s ∈ segs, goodSeg s) (hne : segs ≠ []) :
    lastIsSlash (interSlash segs) = false := by
  induction segs with
  | nil => exact absurd rfl hne
  | cons s rest ih =>
    cases rest with
    | nil =>
      obtain ⟨h1, _, _, h4⟩ := h s (by simp)
      show lastIsSlash s = false
      unfold lastIsSlash
      cases hlast : s.getLast? with
      | none => simp
      | some c =>
        have hcs : c ∈ s := by
          have hmem : c ∈ s.getLast? := by rw [hlast]; rfl
          obtain ⟨hh, rfl⟩ := List.mem_getLast?_eq_getLast hmem
          exact List.getLast_mem hh
        have : ¬ c = '/' := fun hc => h4 (hc ▸ hcs)
        simp [this]
    | cons t ts =>
      have h1 : interSlash (s :: t :: ts) = s ++ '/' :: interSlash (t :: ts) := rfl
      rw [h1]
      unfold lastIsSlash
      rw [List.getLast?_append_cons]
      have hrec := ih (fun u hu => h u (List.mem_cons_of_mem _ hu)) (by simp)
      unfold lastIsSlash at hrec
      cases hts : interSlash (t :: ts) with
      | nil =>
        exact absurd hts (interSlash_ne_nil (t :: ts) (by simp)
          (fun u hu => (h u (List.mem_cons_of_mem _ hu)).1))
      | cons x xs =>
        rw [List.getLast?_cons_cons]
        rw [hts] at hrec
        exact hrec

end NodePath

namespace NodePath

theorem mkAbs_ne_nil (segs : List (List Char)) (t : Bool) : mkAbs segs t ≠ [] := by
  unfold mkAbs
  split <;> simp

theorem mkAbs_cons (segs : List (List Char)) (t : Bool) :
    ∃ x, mkAbs segs t = '/' :: x := by
  unfold mkAbs
  split
  · exact ⟨[], rfl⟩
  · exact ⟨_, rfl⟩

theorem normalize_abs_eq (p : List Char) (hp : isAbs p = true) (hpne : p ≠ []) :
    normalize p =
      (if interSlash (normSegs false (splitOnSlash p)) = [] then ['/']
       else '/' :: (interSlash (normSegs false (splitOnSlash p)) ++
         if lastIsSlash p then ['/'] else [])) := by
  unfold normalize
  rw [if_neg hpne]
  simp [hp]

theorem normalize_abs_char (p : List Char) (hp : isAbs p = true) :
    ∃ segs, (∀ s ∈ segs, goodSeg s)
      ∧ normalize p = mkAbs segs (lastIsSlash p) := by
  have hpne : p ≠ [] := by
    cases p with
    | nil => simp [isAbs] at hp
    | cons c r => simp
  have hgood := normSegs_false_good (splitOnSlash p) (mem_splitOnSlash_no_slash p)
  refine ⟨normSegs false (splitOnSlash p), hgood, ?_⟩
  rw [normalize_abs_eq p hp hpne]
  by_cases h0 : normSegs false (splitOnSlash p) = []
  · rw [h0]
    simp [interSlash, mkAbs]
  · have hcne : interSlash (normSegs false (splitOnSlash p)) ≠ [] :=
      interSlash_ne_nil _ h0 (fun s hs => (hgood s hs).1)
    rw [if_neg hcne]
    unfold mkAbs
    rw [if_neg h0]

end NodePath

namespace NodePath

theorem filter_clean (l : List (List Char)) (h : ∀ s ∈ l, goodSeg s) :
    l.filter (fun s => s ≠ []) = l := by
  apply List.filter_eq_self.mpr
  intro a ha
  simpa using (h a ha).1

theorem filter_all_empty (l : List (List Char)) (h : ∀ s ∈ l, s = []) :
    l.filter (fun s => s ≠ []) = [] := by
  apply List.filter_eq_nil_iff.mpr
  intro a ha
  simpa using h a ha

theorem normSegs_parts (rsegs qsegs tail : List (List Char))
    (hr : ∀ s ∈ rsegs, goodSeg s) (hq : ∀ s ∈ qsegs, goodSeg s)
    (htail : ∀ s ∈ tail, s = []) :
    normSegs false (([] :: rsegs) ++ ([] :: (qsegs ++ tail))) = rsegs ++ qsegs := by
  unfold normSegs
  rw [foldl_normStep_clean]
  · rw [List.nil_append, List.filter_append]
    have hcons : ∀ l : List (List Char),
        List.filter (fun s => s ≠ []) (([] : List Char) :: l)
          = List.filter (fun s => s ≠ []) l := by
      intro l
      simp
    rw [hcons, hcons, List.filter_append, filter_clean rsegs hr,
      filter_clean qsegs hq, filter_all_empty tail htail, List.append_nil]
  · intro s hs
    rcases List.mem_append.mp hs with hs | hs
    · rcases List.mem_cons.mp hs with rfl | hs
      · exact Or.inl rfl
      · exact Or.inr (hr s hs)
    · rcases List.mem_cons.mp hs with rfl | hs
      · exact Or.inl rfl
      · rcases List.mem_append.mp hs with hs | hs
        · exact Or.inr (hq s hs)
        · exact Or.inl (htail s hs)

theorem joinTwo_mkAbs (rsegs qsegs : List (List Char)) (t : Bool)
    (hr : ∀ s ∈ rsegs, goodSeg s) (hrne : rsegs ≠ [])
    (hq : ∀ s ∈ qsegs, goodSeg s) :
    joinTwo (mkAbs rsegs false) (mkAbs qsegs t) =
      mkAbs rsegs false ++ mkAbs qsegs t := by
  have hrslash : ∀ s ∈ rsegs, '/' ∉ s := fun s hs => (hr s hs).2.2.2
  have hqslash : ∀ s ∈ qsegs, '/' ∉ s := fun s hs => (hq s hs).2.2.2
  have hroot : mkAbs rsegs false = '/' :: interSlash rsegs := by
    unfold mkAbs
    rw [if_neg hrne]
    simp
  have hrootne : mkAbs rsegs false ≠ [] := mkAbs_ne_nil _ _
  have hqne0 : mkAbs qsegs t ≠ [] := mkAbs_ne_nil _ _
  have hRne : interSlash rsegs ≠ [] :=
    interSlash_ne_nil rsegs hrne (fun s hs => (hr s hs).1)
  have hj : joinTwo (mkAbs rsegs false) (mkAbs qsegs t) =
      normalize (mkAbs rsegs false ++ '/' :: mkAbs qsegs t) := by
    unfold joinTwo
    rw [if_neg (fun hand => hrootne hand.1), if_neg hrootne, if_neg hqne0]
  rw [hj]
  have hwabs : isAbs (mkAbs rsegs false ++ '/' :: mkAbs qsegs t) = true := by
    rw [hroot, List.cons_append]
    rfl
  have hwne : mkAbs rsegs false ++ '/' :: mkAbs qsegs t ≠ [] := by
    simp
  rw [normalize_abs_eq _ hwabs hwne]
  rw [splitOnSlash_append]
  have hsplitroot : splitOnSlash (mkAbs rsegs false) = [] :: rsegs := by
    rw [hroot, splitOnSlash_cons_slash, splitOnSlash_interSlash rsegs hrne hrslash]
  rw [hsplitroot]
  by_cases hqe : qsegs = []
  · -- the virtual path normalizes to the bare separator
    subst hqe
    have hq1 : mkAbs ([] : List (List Char)) t = ['/'] := rfl
    rw [hq1]
    have hsplitq : splitOnSlash ['/'] = [[], []] := by
      rw [splitOnSlash_cons_slash]
      rfl
    rw [hsplitq]
    have hns : normSegs false (([] :: rsegs) ++ [[], []]) = rsegs ++ [] := by
      have := normSegs_parts rsegs [] [[]] hr (by simp) (by simp)
      simpa using this
    rw [List.append_nil] at hns
    rw [hns, if_neg hRne]
    have htrail : lastIsSlash (mkAbs rsegs false ++ '/' :: ['/']) = true := by
      unfold lastIsSlash
      rw [List.getLast?_append_cons]
      rfl
    rw [htrail]
    rw [hroot, List.cons_append]
    simp
  · have hq2 : mkAbs qsegs t =
        '/' :: (interSlash qsegs ++ if t then ['/'] else []) := by
      unfold mkAbs
      rw [if_neg hqe]
    have hQne : interSlash qsegs ≠ [] :=
      interSlash_ne_nil qsegs hqe (fun s hs => (hq s hs).1)
    have hcore : interSlash (rsegs ++ qsegs) =
        interSlash rsegs ++ '/' :: interSlash qsegs :=
      interSlash_append rsegs qsegs hrne hqe
    cases t with
    | true =>
      rw [hq2]
      rw [if_pos rfl]
      have hsplitq : splitOnSlash ('/' :: (interSlash qsegs ++ ['/'])) =
          [] :: (qsegs ++ [[]]) := by
        rw [splitOnSlash_cons_slash]
        have : interSlash qsegs ++ ['/'] = interSlash qsegs ++ '/' :: [] := rfl
        rw [this, splitOnSlash_append,
          splitOnSlash_interSlash qsegs hqe hqslash]
        rfl
      rw [hsplitq]
      rw [normSegs_parts rsegs qsegs [[]] hr hq (by simp)]
      have hcne : interSlash (rsegs ++ qsegs) ≠ [] := by
        rw [hcore]
        simp [hRne]
      rw [if_neg hcne]
      have htrail : lastIsSlash (mkAbs rsegs false ++
          '/' :: ('/' :: (interSlash qsegs ++ ['/']))) = true := by
        unfold lastIsSlash
        rw [List.getLast?_append_cons]
        have : ('/' : Char) :: ('/' :: (interSlash qsegs ++ ['/'])) =
            ('/' :: '/' :: interSlash qsegs) ++ '/' :: [] := by simp
        rw [this, List.getLast?_append_cons]
        rfl
      rw [htrail]
      rw [hcore, hroot]
      simp
    | false =>
      rw [hq2]
      rw [if_neg Bool.false_ne_true, List.append_nil]
      have hsplitq : splitOnSlash ('/' :: interSlash qsegs) = [] :: qsegs := by
        rw [splitOnSlash_cons_slash, splitOnSlash_interSlash qsegs hqe hqslash]
      rw [hsplitq]
      have hns : normSegs false (([] :: rsegs) ++ ([] :: qsegs)) =
          rsegs ++ qsegs := by
        have := normSegs_parts rsegs qsegs [] hr hq (by simp)
        simpa using this
      rw [hns]
      have hcne : interSlash (rsegs ++ qsegs) ≠ [] := by
        rw [hcore]
        simp [hRne]
      rw [if_neg hcne]
      have htrail : lastIsSlash (mkAbs rsegs false ++
          '/' :: ('/' :: interSlash qsegs)) = false := by
        unfold lastIsSlash
        rw [List.getLast?_append_cons, List.getLast?_cons_cons]
        cases hQ : interSlash qsegs with
        | nil => exact absurd hQ hQne
        | cons x xs =>
          rw [List.getLast?_cons_cons]
          have := lastIsSlash_interSlash qsegs hq hqe
          unfold lastIsSlash at this
          rw [hQ] at this
          exact this
      rw [htrail]
      rw [hcore, hroot]
      simp

end NodePath

namespace NodePath

theorem normSegs_cons_empty (ab : Bool) (segs : List (List Char)) :
    normSegs ab ([] :: segs) = normSegs ab segs := by
  unfold normSegs
  rw [List.foldl_cons, normStep_empty]

theorem normalize_triple_slash (rest : List Char) :
    normalize ('/' :: '/' :: '/' :: rest) = normalize ('/' :: rest) := by
  rw [normalize_abs_eq _ (by rfl) (by simp), normalize_abs_eq _ (by rfl) (by simp)]
  simp only [splitOnSlash_cons_slash, normSegs_cons_empty]
  have hlast : lastIsSlash ('/' :: '/' :: '/' :: rest) =
      lastIsSlash ('/' :: rest) := by
    unfold lastIsSlash
    cases rest with
    | nil => rfl
    | cons x xs =>
      rw [List.getLast?_cons_cons, List.getLast?_cons_cons,
        List.getLast?_cons_cons]
  rw [hlast]

theorem joinTwo_slash_abs (p : List Char) (hp : isAbs p = true) :
    joinTwo ['/'] p = normalize p := by
  obtain ⟨rest, rfl⟩ : ∃ rest, p = '/' :: rest := by
    cases p with
    | nil => simp [isAbs] at hp
    | cons c r =>
      have hc : c = '/' := by simpa [isAbs] using hp
      exact ⟨r, by rw [hc]⟩
  unfold joinTwo
  rw [if_neg (by simp), if_neg (by simp), if_neg (by simp)]
  exact normalize_triple_slash rest

end NodePath

namespace SafeFilesystem

theorem tvAux_append (root rest : List Char) :
    tvAux root (root ++ rest) = some rest := by
  induction root with
  | nil => rfl
  | cons r rs ih => simp [tvAux, ih]

theorem tvAux_not_isPrefixOf (root full : List Char)
    (h : root.isPrefixOf full = false) : tvAux root full = none := by
  induction root generalizing full with
  | nil => simp [List.isPrefixOf] at h
  | cons r rs ih =>
    cases full with
    | nil => rfl
    | cons f fs =>
      by_cases hrf : r = f
      · subst hrf
        have hh : rs.isPrefixOf fs = false := by
          simpa [List.isPrefixOf] using h
        simp [tvAux, ih fs hh]
      · simp [tvAux, hrf]

theorem toVirtualPath_append (root q : List Char) (hq : q ≠ []) :
    toVirtualPath root (root ++ q) = q := by
  unfold toVirtualPath
  rw [tvAux_append]
  simp [hq]

theorem toVirtualPath_not_prefixOf (root full : List Char)
    (h : root.isPrefixOf full = false) : toVirtualPath root full = ['/'] := by
  unfold toVirtualPath
  rw [tvAux_not_isPrefixOf root full h]
  simp

end SafeFilesystem

/-- C1 counterexample: with the virtual root configured as the bare
separator (root = Path.normalize of the separator), the round trip of
the rooted path does not return its POSIX-normalized form: the leading
separator is stripped. -/
theorem C1_counterexample :
    SafeFilesystem.toVirtualPath (NodePath.normalize ['/'])
        (SafeFilesystem.toRealPath (NodePath.normalize ['/']) ['/', 'a'])
      = ['a']
    ∧ NodePath.normalize ['/', 'a'] = ['/', 'a']
    ∧ (['a'] : List Char) ≠ ['/', 'a'] := by decide

/-- C1 amended: when the configured virtual root normalizes to an
absolute path other than the bare separator and without a trailing
separator, toVirtualPath inverts toRealPath up to POSIX normalization
for every absolute virtual path p; and for every full path of which the
root is not a string prefix, toVirtualPath returns the root virtual
path.  (With the root equal to the bare separator the round trip
instead drops the leading separator, as the counterexample shows.) -/
theorem C1_amended (v p full : List Char)
    (hv : NodePath.isAbs v = true) (hvt : NodePath.lastIsSlash v = false)
    (hvr : NodePath.normalize v ≠ ['/'])
    (hp : NodePath.isAbs p = true) :
    SafeFilesystem.toVirtualPath (NodePath.normalize v)
        (SafeFilesystem.toRealPath (NodePath.normalize v) p)
      = NodePath.normalize p
    ∧ (List.isPrefixOf (NodePath.normalize v) full = false →
        SafeFilesystem.toVirtualPath (NodePath.normalize v) full = ['/']) := by
  obtain ⟨rsegs, hrgood, hrchar⟩ := NodePath.normalize_abs_char v hv
  rw [hvt] at hrchar
  have hrne : rsegs ≠ [] := by
    intro h0
    apply hvr
    rw [hrchar, h0]
    rfl
  obtain ⟨qsegs, hqgood, hqchar⟩ := NodePath.normalize_abs_char p hp
  constructor
  · unfold SafeFilesystem.toRealPath
    rw [NodePath.joinTwo_slash_abs p hp, hqchar, hrchar,
      NodePath.joinTwo_mkAbs rsegs qsegs _ hrgood hrne hqgood,
      SafeFilesystem.toVirtualPath_append _ _ (NodePath.mkAbs_ne_nil _ _)]
  · intro hpre
    exact SafeFilesystem.toVirtualPath_not_prefixOf _ full hpre

/-- Witness for C1 at a concrete root and path. -/
theorem C1_amended_witness :
    SafeFilesystem.toVirtualPath (NodePath.normalize ['/', 'r'])
        (SafeFilesystem.toRealPath (NodePath.normalize ['/', 'r']) ['/', 'a'])
      = NodePath.normalize ['/', 'a']
    ∧ SafeFilesystem.toVirtualPath (NodePath.normalize ['/', 'r']) ['/', 'x']
      = ['/'] :=
  ⟨(C1_amended ['/', 'r'] ['/', 'a'] ['/', 'x'] (by decide) (by decide)
      (by decide) (by decide)).1,
   (C1_amended ['/', 'r'] ['/', 'a'] ['/', 'x'] (by decide) (by decide)
      (by decide) (by decide)).2 (by decide)⟩
